import Mathlib

/-!
Verification of the transfermarkt scraping program
(`src/transfer-markt-scraping.py`) against its specification.

The Python source is shallowly embedded below.  Conventions:

* Python strings are `String`; all custom character-level operations work on
  `String.data` (a `List Char`) so that every definition is executable and
  kernel-reducible.
* Python `float` is modelled by `PyFloat`: an exact decimal number
  (`DecNum`, an integer mantissa over a power-of-ten denominator) for finite
  values, plus positive/negative infinity.  `float(str)` overflows to
  infinity (it does not raise) once the decimal value reaches 2^1024;
  rounding of finite values to 53-bit precision is not modelled (no claim
  below depends on it), and the `inf`/`nan` spellings and underscore
  grouping accepted by Python are likewise outside the model (none of them
  can carry a digit, or occur in the inputs exercised here).
* Python `int(float)` truncates toward zero and raises `OverflowError` on an
  infinity; fallible paths are embedded with `Except`/`Option`, where
  `Except.error` marks an exception escaping the embedded code.
* `datetime` values are modelled by `PyDate`, which carries the validity
  invariants that `datetime` enforces in its constructor
  (`MINYEAR = 1`, `MAXYEAR = 9999`, month in 1..12, day in 1..days-in-month).
-/

set_option maxRecDepth 8192

deriving instance DecidableEq for Except

/-- Decimal value of a list of digit characters (most significant first),
as produced by folding `c.toNat - '0'.toNat`. -/
def digitsToNat (ds : List Char) : Nat :=
  ds.foldl (fun a c => a * 10 + (c.toNat - 48)) 0

/-- Substring test on character lists: does `hay` contain `needle`?
Models Python's `needle in hay` on strings. -/
def containsSub (hay needle : List Char) : Bool :=
  match hay with
  | [] => needle.isEmpty
  | _ :: t => needle.isPrefixOf hay || containsSub t needle

/-- Python `sub in s` for strings. -/
def containsStr (s sub : String) : Bool :=
  containsSub s.data sub.data

/-- `re.search(r'\d', s)` succeeds: some character is a decimal digit. -/
def containsDigit (s : String) : Bool :=
  s.data.any Char.isDigit

/-- Python `str.strip()` on a character list (ASCII whitespace model). -/
def stripChars (cs : List Char) : List Char :=
  ((cs.dropWhile Char.isWhitespace).reverse.dropWhile Char.isWhitespace).reverse

/-- `10 ^ n` as an integer (computed through `Nat.pow`, which the kernel
evaluates natively). -/
def pow10 (n : Nat) : Int :=
  ((10 ^ n : Nat) : Int)

/-- An exact decimal number `num / 10 ^ exp10`.  This represents every value
the embedded program manipulates (decimal parses, scalings by powers of
ten); no normalization is performed. -/
structure DecNum where
  num : Int
  exp10 : Nat
deriving DecidableEq

/-- The rational value denoted by a `DecNum` (used in claim statements). -/
def DecNum.val (d : DecNum) : ℚ :=
  (d.num : ℚ) / (10 : ℚ) ^ d.exp10

/-- Model of a Python `float` value: exact finite decimal, or an infinity. -/
inductive PyFloat where
  | finite (d : DecNum)
  | inf
  | negInf
deriving DecidableEq

/-- The rational value of a finite Python float (`none` on an infinity). -/
def PyFloat.toVal : PyFloat → Option ℚ
  | .finite d => some d.val
  | .inf => none
  | .negInf => none

/-- Smallest magnitude at which `float(str)` conversion overflows to an
infinity (model: 2^1024, the top of the IEEE-754 double range). -/
def floatOverflowBound : Int := ((2 ^ 1024 : Nat) : Int)

/-- Classify an exact decimal value as a Python float (overflow to ±inf). -/
def mkPyFloat (d : DecNum) : PyFloat :=
  if floatOverflowBound * pow10 d.exp10 ≤ d.num then .inf
  else if d.num ≤ -(floatOverflowBound * pow10 d.exp10) then .negInf
  else .finite d

/-- Negation of a decimal number. -/
def DecNum.neg (d : DecNum) : DecNum :=
  ⟨-d.num, d.exp10⟩

/-- Multiplication of a decimal number by `10 ^ e` (for a positive decimal
exponent). -/
def DecNum.mulPow10 (d : DecNum) (e : Nat) : DecNum :=
  ⟨d.num * pow10 e, d.exp10⟩

/-- Division of a decimal number by `10 ^ e` (for a negative decimal
exponent). -/
def DecNum.divPow10 (d : DecNum) (e : Nat) : DecNum :=
  ⟨d.num, d.exp10 + e⟩

/-- Multiplication by an integer scale factor (`* 1000000`, `* 1000`). -/
def DecNum.mulScale (d : DecNum) (n : Nat) : DecNum :=
  ⟨d.num * (n : Int), d.exp10⟩

/-- Truncation toward zero (what `int(...)` does to a finite float). -/
def DecNum.trunc (d : DecNum) : Int :=
  if 0 ≤ d.num then d.num / pow10 d.exp10
  else -((-d.num) / pow10 d.exp10)

/-- Parse an unsigned decimal float literal: `digits`, `digits.digits?`,
`.digits`, each with an optional `e`/`E` exponent.  `none` models
`ValueError` from Python's `float(str)`. -/
def parseUnsignedFloat (cs : List Char) : Option DecNum :=
  let ip := cs.takeWhile Char.isDigit
  let r1 := cs.dropWhile Char.isDigit
  let mant : Option (DecNum × List Char) :=
    match r1 with
    | '.' :: r2 =>
      let fp := r2.takeWhile Char.isDigit
      let r3 := r2.dropWhile Char.isDigit
      if ip.isEmpty && fp.isEmpty then none
      else some (⟨(digitsToNat ip * 10 ^ fp.length + digitsToNat fp : Nat), fp.length⟩, r3)
    | _ => if ip.isEmpty then none else some (⟨(digitsToNat ip : Nat), 0⟩, r1)
  match mant with
  | none => none
  | some (m, rest) =>
    match rest with
    | [] => some m
    | 'e' :: r => parseExponent m r
    | 'E' :: r => parseExponent m r
    | _ => none
where
  /-- Parse the `[+-]?digits` tail of an exponent and apply it. -/
  parseExponent (m : DecNum) (r : List Char) : Option DecNum :=
    let (eneg, r2) : Bool × List Char :=
      match r with
      | '+' :: t => (false, t)
      | '-' :: t => (true, t)
      | t => (false, t)
    let ds := r2.takeWhile Char.isDigit
    let r3 := r2.dropWhile Char.isDigit
    if ds.isEmpty || !r3.isEmpty then none
    else if eneg then some (m.divPow10 (digitsToNat ds))
    else some (m.mulPow10 (digitsToNat ds))

/-- Model of Python's `float(str)` builtin on decimal notation: optional
surrounding whitespace, optional sign, mantissa with optional exponent;
out-of-range values overflow to an infinity rather than raising. -/
def pyFloatOfString (s : String) : Option PyFloat :=
  let cs := stripChars s.data
  let (neg, cs2) : Bool × List Char :=
    match cs with
    | '-' :: t => (true, t)
    | '+' :: t => (false, t)
    | t => (false, t)
  match parseUnsignedFloat cs2 with
  | none => none
  | some d => some (mkPyFloat (if neg then d.neg else d))

/-- Python `int(f)` on a float: truncates a finite value toward zero, raises
`OverflowError` on an infinity. -/
def pyIntOfFloat : PyFloat → Except String Int
  | .finite d => .ok d.trunc
  | .inf => .error "OverflowError: cannot convert float infinity to integer"
  | .negInf => .error "OverflowError: cannot convert float infinity to integer"

/-- Float multiplication by a positive integer scale (`* 1000000`,
`* 1000`), overflowing to an infinity past the float range. -/
def pyMulScale (f : PyFloat) (n : Nat) : PyFloat :=
  match f with
  | .finite d => mkPyFloat (d.mulScale n)
  | .inf => .inf
  | .negInf => .negInf

/-- Embedding of `convert_currency_to_number` (source lines 11-58).
`Except.error` marks an exception escaping the function: the source wraps
each `float(...)` call in `try/except ValueError` (yielding 0 with a
warning), but applies `int(...)` either outside any `try` block (line 58)
or inside a `try` that catches only `ValueError` (line 26), so the
`OverflowError` raised by `int` on an infinite float propagates. -/
def convert_currency_to_number (currency_str : String) : Except String Int :=
  if !containsDigit currency_str then .ok 0
  else if currency_str = "" || currency_str = "-" then .ok 0
  else if !currency_str.data.contains '€' && !currency_str.data.contains 'm'
      && !currency_str.data.contains 'k' then
    -- not a recognizable currency format: `return int(float(currency_str))`
    -- with only `ValueError` caught
    match pyFloatOfString currency_str with
    | some f => pyIntOfFloat f
    | none => .ok 0
  else
    -- `currency_str.replace('€', '').strip()`
    let t : List Char := stripChars (currency_str.data.filter (fun c => c ≠ '€'))
    if t.contains 'm' then
      match pyFloatOfString ⟨t.filter (fun c => c ≠ 'm')⟩ with
      | some f => pyIntOfFloat (pyMulScale f 1000000)
      | none => .ok 0
    else if t.contains 'k' then
      match pyFloatOfString ⟨t.filter (fun c => c ≠ 'k')⟩ with
      | some f => pyIntOfFloat (pyMulScale f 1000)
      | none => .ok 0
    else
      match pyFloatOfString ⟨t⟩ with
      | some f => pyIntOfFloat f
      | none => .ok 0

/-- Greedy match of `\d+\.?\d*` at the head of `cs` (the matched text). -/
def numCore (cs : List Char) : List Char :=
  let ip := cs.takeWhile Char.isDigit
  let r := cs.dropWhile Char.isDigit
  match r with
  | '.' :: r2 => ip ++ '.' :: r2.takeWhile Char.isDigit
  | _ => ip

/-- Match of `-?\d+\.?\d*` anchored at the head of `cs`, if any. -/
def numMatchAt (cs : List Char) : Option (List Char) :=
  match cs with
  | '-' :: rest =>
    if (rest.takeWhile Char.isDigit).isEmpty then none
    else some ('-' :: numCore rest)
  | _ =>
    if (cs.takeWhile Char.isDigit).isEmpty then none
    else some (numCore cs)

/-- `re.search(r'(-?\d+\.?\d*)', s)`: leftmost match of a signed decimal
number, scanning positions left to right. -/
def searchNumber : List Char → Option (List Char)
  | [] => none
  | c :: t =>
    match numMatchAt (c :: t) with
    | some m => some m
    | none => searchNumber t

/-- Embedding of `parse_percentage` (source lines 61-82).  The result is a
Python float; the matched text of `-?\d+\.?\d*` is always a valid float
literal, so the function never raises.  The shape test on line 69 uses
`re.search(r'-?\d+\.?\d*\s*%?', s)`, which succeeds exactly when `s`
contains a decimal digit (everything but the mandatory `\d+` is optional). -/
def parse_percentage (percentage_str : String) : PyFloat :=
  if percentage_str = "" || percentage_str = "-" then .finite ⟨0, 0⟩
  else if !percentage_str.data.contains '%' && !containsDigit percentage_str then
    .finite ⟨0, 0⟩
  else
    match searchNumber percentage_str.data with
    | some m =>
      match pyFloatOfString ⟨m⟩ with
      | some f => f
      | none => .finite ⟨0, 0⟩
    | none => .finite ⟨0, 0⟩

/-! ## Header canonicalization and deduplication (Table Extractor) -/

/-- ASCII lower-casing of a string, modelling `str.lower()` on the header
texts in play (all ASCII). -/
def lowerStr (s : String) : String :=
  ⟨s.data.map Char.toLower⟩

/-- A word character of `\w` (ASCII model: letter, digit or underscore). -/
def isWordChar (c : Char) : Bool :=
  c.isAlphanum || c = '_'

/-- Match of the regex `Value \w+ \d+` anchored at the head of `cs`:
the literal `"Value "`, then one or more word characters, a space, and at
least one digit.  (After the maximal word-character run, the regex engine
must see a space and then a digit; no other backtracking split is
possible because a word character is never a space.) -/
def valuePatAt (cs : List Char) : Bool :=
  match cs with
  | 'V' :: 'a' :: 'l' :: 'u' :: 'e' :: ' ' :: rest =>
    let w := rest.takeWhile isWordChar
    let r := rest.dropWhile isWordChar
    !w.isEmpty &&
      (match r with
       | ' ' :: d :: _ => d.isDigit
       | _ => false)
  | _ => false

/-- `re.search(r'Value \w+ \d+', s)`: the pattern matches at some
position. -/
def valuePatSearch : List Char → Bool
  | [] => false
  | c :: t => valuePatAt (c :: t) || valuePatSearch t

/-- Canonicalization of one trimmed header-cell text
(source lines 197-206): empty text becomes the rank placeholder, a text
containing `Club` becomes `Club`, and a text matching the value-column
pattern or containing `value` case-insensitively becomes `Value`. -/
def canonicalizeHeaderText (t : String) : String :=
  if t = "" then "Rank"
  else if containsStr t "Club" then "Club"
  else if valuePatSearch t.data || containsStr (lowerStr t) "value" then "Value"
  else t

/-- The label the dedup pass emits for the `k`-th occurrence (1-based) of
`"Value"` (source lines 214-220). -/
def valueLabel (k : Nat) : String :=
  if k > 1 then "Value_" ++ toString k else "Value"

/-- The dedup loop of source lines 210-222, with its accumulator
(`final_headers`, `value_count`) made explicit: each `"Value"` label is
renumbered by occurrence count and always retained; any other label is
retained only if not already present in the accumulated list. -/
def dedupHeadersAux : List String → List String → Nat → List String
  | [], final, _ => final
  | h :: t, final, count =>
    if h = "Value" then
      dedupHeadersAux t (final ++ [valueLabel (count + 1)]) (count + 1)
    else if h ∈ final then
      dedupHeadersAux t final count
    else
      dedupHeadersAux t (final ++ [h]) count

/-- The final header list built from the canonicalized labels
(source lines 210-224). -/
def dedupHeaders (hs : List String) : List String :=
  dedupHeadersAux hs [] 0

/-- Full header derivation from the raw header-cell texts: canonicalize
each trimmed text, then dedup (source lines 193-224; the filtering of
`hide`-classed cells happens before the texts are taken). -/
def headersFromTexts (ts : List String) : List String :=
  dedupHeaders (ts.map canonicalizeHeaderText)

/-- Does the character list `s` start with `p`? -/
def listStartsOf (s p : List Char) : Bool :=
  match p, s with
  | [], _ => true
  | _ :: _, [] => false
  | q :: qs, c :: cs => c == q && listStartsOf cs qs

/-- A label of the value family: literally `"Value"`, or a renumbered
variant `"Value_..."`. -/
def isValueFamilyLabel (l : String) : Bool :=
  l == "Value" || listStartsOf l.data "Value_".data

/-- First-occurrence deduplication of a label list relative to a set of
already-seen labels: a label equal to an earlier-retained one is dropped,
order preserved.  (Reference description of the non-`"Value"` part of the
dedup pass.) -/
def keptNonValue : List String → List String → List String
  | [], _ => []
  | h :: t, seen =>
    if h ∈ seen then keptNonValue t seen
    else h :: keptNonValue t (seen ++ [h])

/-! ## Row extraction (Table Extractor) -/

/-- A value stored in a row mapping: raw text, normalized currency
(`int`), or normalized percentage (`float`). -/
inductive PyValue where
  | s (v : String)
  | i (v : Int)
  | f (v : PyFloat)
deriving DecidableEq

/-- Python truthiness of a cell value (`""`, `0` and `0.0` are falsy). -/
def PyValue.truthy : PyValue → Bool
  | .s v => v != ""
  | .i n => n != 0
  | .f fl =>
    match fl with
    | .finite d => d.num != 0
    | _ => true

/-- A table cell of the parsed markup: its CSS classes and its trimmed
text (`get_text(strip=True)`). -/
structure HtmlCell where
  classes : List String
  text : String
deriving DecidableEq

/-- A table row of the parsed markup. -/
structure HtmlRow where
  classes : List String
  cells : List HtmlCell
deriving DecidableEq

/-- Cell texts of one body row, skipping layout cells classed with both
`no-border-rechts` and `zentriert` (source lines 233-240). -/
def extractCells (row : HtmlRow) : List String :=
  (row.cells.filter (fun c =>
    !(c.classes.contains "no-border-rechts" && c.classes.contains "zentriert"))).map
    (fun c => c.text)

/-- A Python dict with string keys, as an insertion-ordered association
list: assignment overwrites in place or appends a new key at the end. -/
def dictSet (d : List (String × PyValue)) (k : String) (v : PyValue) :
    List (String × PyValue) :=
  match d with
  | [] => [(k, v)]
  | (k', v') :: t => if k' = k then (k, v) :: t else (k', v') :: dictSet t k v

/-- `row_data` initialization: every header mapped to the empty string
(source lines 250-252). -/
def buildRowInit (headers : List String) : List (String × PyValue) :=
  headers.foldl (fun d h => dictSet d h (.s "")) []

/-- One step of the positional cell-to-header mapping (source lines
255-264): headers containing `Value` get normalized currency, headers
containing `%` get normalized percentage, all others raw text; indices
beyond the cell count leave the row unchanged.  An `OverflowError`
escaping `convert_currency_to_number` propagates. -/
def mapCellStep (cells : List String) (d : List (String × PyValue))
    (ih : Nat × String) : Except String (List (String × PyValue)) :=
  let i := ih.1
  let header := ih.2
  if i < cells.length then
    if containsStr header "Value" then
      match convert_currency_to_number (cells.getD i "") with
      | .ok n => .ok (dictSet d header (.i n))
      | .error e => .error e
    else if containsStr header "%" && decide (i < cells.length) then
      .ok (dictSet d header (.f (parse_percentage (cells.getD i ""))))
    else
      .ok (dictSet d header (.s (cells.getD i "")))
  else
    .ok d

/-- `row_data` for one body row: initialization followed by the indexed
mapping loop (source lines 247-264). -/
def buildRow (headers : List String) (cells : List String) :
    Except String (List (String × PyValue)) :=
  headers.enum.foldlM (mapCellStep cells) (buildRowInit headers)

/-- Processing of one body row (source lines 228-268): skip `thead`/`tfoot`
rows, skip rows with fewer than 2 remaining cells, build the row mapping,
and retain the row only if it is non-empty and has a truthy value under
`"Club"`. -/
def processRow (headers : List String) (row : HtmlRow) :
    Except String (Option (List (String × PyValue))) :=
  if row.classes.contains "thead" || row.classes.contains "tfoot" then .ok none
  else
    let cells := extractCells row
    if cells.length < 2 then .ok none
    else
      match buildRow headers cells with
      | .error e => .error e
      | .ok d =>
        if !d.isEmpty &&
            (match d.lookup "Club" with
             | some v => v.truthy
             | none => false) then
          .ok (some d)
        else
          .ok none

/-- One step of the `teams_data` accumulation: append the row's mapping if
it was retained, keep the accumulator if it was skipped. -/
def scrapeStep (headers : List String)
    (acc : List (List (String × PyValue))) (row : HtmlRow) :
    Except String (List (List (String × PyValue))) :=
  match processRow headers row with
  | .error e => .error e
  | .ok (some r) => .ok (acc ++ [r])
  | .ok none => .ok acc

/-- The `teams_data` accumulation loop over all body rows
(source lines 227-268). -/
def scrapeRows (headers : List String) (rows : List HtmlRow) :
    Except String (List (List (String × PyValue))) :=
  rows.foldlM (scrapeStep headers) []

/-- The extraction result: final headers paired with the retained rows. -/
structure ScrapeResult where
  headers : List String
  data : List (List (String × PyValue))
deriving DecidableEq

/-- Header texts of the header row, skipping `hide`-classed cells
(source lines 193-197). -/
def extractHeaderTexts (hr : HtmlRow) : List String :=
  (hr.cells.filter (fun c => !c.classes.contains "hide")).map (fun c => c.text)

/-- The pure extraction pipeline for one located table: derive the final
headers from the header row, then map every body row
(source lines 187-270). -/
def scrape_table (headerRow : HtmlRow) (bodyRows : List HtmlRow) :
    Except String ScrapeResult :=
  let headers := headersFromTexts (extractHeaderTexts headerRow)
  match scrapeRows headers bodyRows with
  | .ok rows => .ok ⟨headers, rows⟩
  | .error e => .error e

/-! ## Date sequencing (Date Sequencer) -/

/-- Whether a year is a leap year (Gregorian rule, as `datetime` uses). -/
def isLeapYear (y : Nat) : Bool :=
  (y % 4 == 0 && y % 100 != 0) || y % 400 == 0

/-- Days in a month (as `datetime` validates them). -/
def daysInMonth (y m : Nat) : Nat :=
  if m = 2 then (if isLeapYear y then 29 else 28)
  else if m = 4 || m = 6 || m = 9 || m = 11 then 30
  else 31

/-- A `datetime.datetime` date (time-of-day unused): the constructor
invariants `MINYEAR = 1 ≤ year ≤ MAXYEAR = 9999`, `1 ≤ month ≤ 12` and
`1 ≤ day ≤ days-in-month` are part of the type, as `datetime` enforces
them on construction. -/
structure PyDate where
  year : Nat
  month : Nat
  day : Nat
  year_ge : 1 ≤ year
  year_le : year ≤ 9999
  month_ge : 1 ≤ month
  month_le : month ≤ 12
  day_ge : 1 ≤ day
  day_le : day ≤ daysInMonth year month

/-- Date comparison `a <= b` (lexicographic, as `datetime` compares). -/
def dateLeB (a b : PyDate) : Bool :=
  decide (a.year < b.year ∨ (a.year = b.year ∧
    (a.month < b.month ∨ (a.month = b.month ∧ a.day ≤ b.day))))

/-- Date comparison `a < b` (lexicographic, as `datetime` compares). -/
def dateLtB (a b : PyDate) : Bool :=
  decide (a.year < b.year ∨ (a.year = b.year ∧
    (a.month < b.month ∨ (a.month = b.month ∧ a.day < b.day))))

/-- Split a character list on `'-'` separators. -/
def splitDash : List Char → List (List Char)
  | [] => [[]]
  | '-' :: t => [] :: splitDash t
  | c :: t =>
    match splitDash t with
    | h :: r => (c :: h) :: r
    | [] => [[c]]

/-- Model of `datetime.strptime(s, "%Y-%m-%d")`: three dash-separated
all-digit fields (`%Y` exactly four digits, `%m` and `%d` one or two), with
the ranges the regex and the `datetime` constructor enforce; `none` models
the `ValueError` raised on any malformed input. -/
def strptimeYmd (s : String) : Option PyDate :=
  match splitDash s.data with
  | [ys, ms, ds] =>
    if ys.length = 4 && ys.all Char.isDigit
        && (ms.length = 1 || ms.length = 2) && ms.all Char.isDigit
        && (ds.length = 1 || ds.length = 2) && ds.all Char.isDigit then
      let y := digitsToNat ys
      let m := digitsToNat ms
      let d := digitsToNat ds
      if h : 1 ≤ y ∧ y ≤ 9999 ∧ 1 ≤ m ∧ m ≤ 12 ∧ 1 ≤ d ∧ d ≤ daysInMonth y m then
        some ⟨y, m, d, h.1, h.2.1, h.2.2.1, h.2.2.2.1, h.2.2.2.2.1, h.2.2.2.2.2⟩
      else none
    else none
  | _ => none

/-- The start-date snap of source lines 102-107: day < 15 snaps to the 1st,
otherwise to the 15th of the same month. -/
def snapStart (d : PyDate) : PyDate :=
  if h : d.day < 15 then
    ⟨d.year, d.month, 1, d.year_ge, d.year_le, d.month_ge, d.month_le,
      le_refl 1, by unfold daysInMonth; split_ifs <;> omega⟩
  else
    ⟨d.year, d.month, 15, d.year_ge, d.year_le, d.month_ge, d.month_le,
      by omega, by unfold daysInMonth; split_ifs <;> omega⟩

/-- The date advance of source lines 117-125: from the 1st to the 15th of
the same month, otherwise to the 1st of the next month, rolling the year
at December.  Constructing `datetime(year + 1, 1, 1)` past `MAXYEAR`
raises `ValueError`, modelled by `none`. -/
def pyNextDate (d : PyDate) : Option PyDate :=
  if d.day = 1 then
    some ⟨d.year, d.month, 15, d.year_ge, d.year_le, d.month_ge, d.month_le,
      by omega, by unfold daysInMonth; split_ifs <;> omega⟩
  else if h12 : d.month = 12 then
    if h : d.year + 1 ≤ 9999 then
      some ⟨d.year + 1, 1, 1, by omega, h, le_refl 1, by omega, le_refl 1,
        by unfold daysInMonth; split_ifs <;> omega⟩
    else none
  else
    some ⟨d.year, d.month + 1, 1, d.year_ge, d.year_le, by omega,
      by have hml := d.month_le; omega, le_refl 1,
      by unfold daysInMonth; split_ifs <;> omega⟩

/-- Measure for the loop: a date's position in the half-month grid. -/
def dateIdx (d : PyDate) : Nat :=
  d.year * 26 + d.month * 2 + (if 15 ≤ d.day then 1 else 0)

/-- The emission loop of source lines 109-127 at the date level: while the
current date is at most the end date, emit it and advance; an advance past
`MAXYEAR` raises (`none`), losing the whole list. -/
def genDates (cur e : PyDate) : Option (List PyDate) :=
  if hle : dateLeB cur e = true then
    match hn : pyNextDate cur with
    | none => none
    | some nxt => (genDates nxt e).map (fun l => cur :: l)
  else some []
termination_by dateIdx e + 1 - dateIdx cur
decreasing_by
  have h1 : dateIdx cur ≤ dateIdx e := by
    rw [dateLeB, decide_eq_true_iff] at hle
    obtain ⟨yc, mc, dc⟩ := cur
    obtain ⟨ye, me, de⟩ := e
    simp only at hle
    unfold dateIdx
    simp only
    split_ifs <;> omega
  have h2 : dateIdx cur < dateIdx nxt := by
    unfold pyNextDate at hn
    split_ifs at hn with ha hb hc
    · cases hn
      unfold dateIdx
      simp only
      have := cur.day_ge
      split_ifs <;> omega
    · cases hn
      unfold dateIdx
      simp only
      have := cur.month_le
      split_ifs <;> omega
    · cases hn
      unfold dateIdx
      simp only
      have h31 : daysInMonth cur.year cur.month ≤ 31 := by
        unfold daysInMonth
        split_ifs <;> omega
      have := cur.day_le
      split_ifs <;> omega
  omega

/-- Zero-padded decimal rendering of width 2 (`strftime` `%m`, `%d`). -/
def pad2 (n : Nat) : String :=
  if n < 10 then "0" ++ toString n else toString n

/-- Zero-padded decimal rendering of width 4 (`strftime` `%Y`). -/
def pad4 (n : Nat) : String :=
  if n < 10 then "000" ++ toString n
  else if n < 100 then "00" ++ toString n
  else if n < 1000 then "0" ++ toString n
  else toString n

/-- `current.strftime("%Y-%m-%d")`. -/
def fmtDate (d : PyDate) : String :=
  pad4 d.year ++ "-" ++ pad2 d.month ++ "-" ++ pad2 d.day

/-- Embedding of `generate_date_range` (source lines 85-127): parse both
dates (`ValueError` on malformed input propagates, `none`), snap the start,
then emit the half-month grid up to the end date. -/
def generate_date_range (start_date end_date : String) : Option (List String) :=
  match strptimeYmd start_date, strptimeYmd end_date with
  | some st, some en =>
    match genDates (snapStart st) en with
    | some l => some (l.map fmtDate)
    | none => none
  | _, _ => none

/-- 2024-10-01 as a `datetime` value. -/
def date_2024_10_01 : PyDate :=
  ⟨2024, 10, 1, by omega, by omega, by omega, by omega, by omega, by decide⟩

/-- 2024-10-15 as a `datetime` value. -/
def date_2024_10_15 : PyDate :=
  ⟨2024, 10, 15, by omega, by omega, by omega, by omega, by omega, by decide⟩

/-- 2024-11-01 as a `datetime` value. -/
def date_2024_11_01 : PyDate :=
  ⟨2024, 11, 1, by omega, by omega, by omega, by omega, by omega, by decide⟩

/-- 2024-11-15 as a `datetime` value. -/
def date_2024_11_15 : PyDate :=
  ⟨2024, 11, 15, by omega, by omega, by omega, by omega, by omega, by decide⟩

/-- 2024-10-20 as a `datetime` value. -/
def date_2024_10_20 : PyDate :=
  ⟨2024, 10, 20, by omega, by omega, by omega, by omega, by omega, by decide⟩

/-- 2024-10-07 as a `datetime` value. -/
def date_2024_10_07 : PyDate :=
  ⟨2024, 10, 7, by omega, by omega, by omega, by omega, by omega, by decide⟩

/-- 9999-12-15: the last date the advance step can be applied to only by
raising (`datetime.MAXYEAR` boundary). -/
def date_9999_12_15 : PyDate :=
  ⟨9999, 12, 15, by omega, by omega, by omega, by omega, by omega, by decide⟩

/-! ## CSV sink (save_to_csv) -/

/-- The `data` argument of `save_to_csv` as seen by its guard: a dict that
may or may not carry the `"headers"` and `"data"` keys (the argument itself
may also be `None`, modelled by `Option` at the call site). -/
structure PyDataDict where
  headersField : Option (List String)
  dataField : Option (List (List (String × PyValue)))
deriving DecidableEq

/-- Python truthiness of an optional string (`None` and `""` are falsy). -/
def optStrTruthy : Option String → Bool
  | some s => s != ""
  | none => false

/-- `row_with_date`: a dict starting with the `Date` key (the date string
when truthy, else `""`), then updated with the row's entries in order
(source lines 302-304). -/
def rowWithDate (date : Option String) (r : List (String × PyValue)) :
    List (String × PyValue) :=
  r.foldl (fun d kv => dictSet d kv.1 kv.2)
    (if optStrTruthy date then [("Date", PyValue.s (date.getD ""))]
     else [("Date", PyValue.s "")])

/-- One CSV record as `csv.DictWriter.writerow` produces it: the row's
value for each field name in order, defaulting to `""` (`restval`).  The
file is modelled as a list of such records (text serialization of the
individual values is outside the model; `DictWriter`'s `ValueError` on
keys outside the field names is likewise not modelled — extractor rows
carry exactly the header keys). -/
def csvRecordOf (fieldnames : List String) (r : List (String × PyValue)) :
    List PyValue :=
  fieldnames.map (fun f => (r.lookup f).getD (PyValue.s ""))

/-- Embedding of `save_to_csv` (source lines 279-311) over a modelled file
system: the sink is `none` when the file does not exist, `some recs`
otherwise.  Returns the function's boolean result and the new sink state:
on the guard's error path (line 283-285) nothing is opened or written;
otherwise the file is opened in append mode, the header record is written
only when the file did not exist, and one record per row is appended. -/
def save_to_csv (data : Option PyDataDict) (file : Option (List (List PyValue)))
    (date : Option String) : Bool × Option (List (List PyValue)) :=
  match data with
  | none => (false, file)
  | some d =>
    match d.headersField, d.dataField with
    | some hs, some rows =>
      let fieldnames := "Date" :: hs
      let headerRecs : List (List PyValue) :=
        if file.isSome then [] else [fieldnames.map PyValue.s]
      let newRecs := rows.map (fun r => csvRecordOf fieldnames (rowWithDate date r))
      (true, some (file.getD [] ++ headerRecs ++ newRecs))
    | _, _ => (false, file)

/-! ## URL construction (Snapshot Orchestrator) -/

/-- The fixed endpoint (source line 154). -/
def baseUrl : String :=
  "https://www.transfermarkt.com/bundesliga/marktwerteverein/wettbewerb/L1"

/-- The date-validation block of source lines 142-151: a truthy date string
is parsed with `strptime` and its day must be 1 or 15; on `ValueError`
(malformed input, or the explicit raise for other days) the error is caught
and the date is discarded (`None`). -/
def validateScrapeDate (date : Option String) : Option String :=
  if optStrTruthy date then
    match date with
    | some s =>
      match strptimeYmd s with
      | some p => if p.day = 1 ∨ p.day = 15 then some s else none
      | none => none
    | none => none
  else date

/-- URL construction (source lines 153-158) after date validation: a truthy
surviving date appends a `stichtag` path segment, otherwise the base URL is
used. -/
def scrapeUrl (date : Option String) : String :=
  let d := validateScrapeDate date
  if optStrTruthy d then
    match d with
    | some s => baseUrl ++ "/stichtag/" ++ s
    | none => baseUrl
  else baseUrl

/-! ## Claim theorems -/

/-! ## Theorems -/

theorem listStartsOf_append (p r : List Char) : listStartsOf (p ++ r) p = true := by
  induction p with
  | nil => simp [listStartsOf]
  | cons c cs ih => simp [listStartsOf, ih]

theorem listStartsOf_exists (s p : List Char) (h : listStartsOf s p = true) :
    ∃ r, s = p ++ r := by
  induction p generalizing s with
  | nil => exact ⟨s, rfl⟩
  | cons q qs ih =>
    cases s with
    | nil => simp [listStartsOf] at h
    | cons c cs =>
      rw [listStartsOf, Bool.and_eq_true, beq_iff_eq] at h
      obtain ⟨r, hr⟩ := ih cs h.2
      exact ⟨r, by rw [h.1, hr]; rfl⟩

theorem isPrefixOf_append_self (p r : List Char) : p.isPrefixOf (p ++ r) = true := by
  induction p with
  | nil => simp [List.isPrefixOf]
  | cons c cs ih => simp [List.isPrefixOf, ih]

theorem containsSub_of_pre (hay needle : List Char)
    (h : needle.isPrefixOf hay = true) : containsSub hay needle = true := by
  cases hay with
  | nil =>
    cases needle with
    | nil => rfl
    | cons n ns => simp [List.isPrefixOf] at h
  | cons c t => simp [containsSub, h]

/-- The canonicalization step justifies the hypothesis of the dedup
invariants: a canonicalized label other than `"Value"` is never of the
value family (in particular it cannot start with `"Value_"`, since any
text containing `value` case-insensitively is collapsed to `"Value"`). -/
theorem canonicalize_not_value_family (t : String)
    (hne : canonicalizeHeaderText t ≠ "Value") :
    isValueFamilyLabel (canonicalizeHeaderText t) = false := by
  unfold canonicalizeHeaderText at hne ⊢
  split_ifs at hne ⊢ with h1 h2 h3
  · decide
  · decide
  · exact absurd rfl hne
  · unfold isValueFamilyLabel
    have hbeq : (t == "Value") = false := beq_eq_false_iff_ne.2 hne
    cases hst : listStartsOf t.data ("Value_".data) with
    | false => simp [hbeq, hst]
    | true =>
      exfalso
      obtain ⟨r, hr⟩ := listStartsOf_exists _ _ hst
      apply h3
      rw [Bool.or_eq_true]
      right
      show containsSub (t.data.map Char.toLower) ("value".data) = true
      rw [hr, List.map_append]
      show containsSub ("value".data ++ ('_' :: r.map Char.toLower))
        ("value".data) = true
      exact containsSub_of_pre _ _ (isPrefixOf_append_self _ _)

/-- Every canonicalized header-text sequence satisfies the hypothesis of
`dedup_headers_invariants`. -/
theorem canonicalized_labels_hcanon (ts : List String) :
    ∀ l ∈ ts.map canonicalizeHeaderText, l ≠ "Value" →
      isValueFamilyLabel l = false := by
  intro l hl hne
  rcases List.mem_map.1 hl with ⟨t, _, hteq⟩
  rw [← hteq] at hne ⊢
  exact canonicalize_not_value_family t hne

theorem valueLabel_isFam (k : Nat) : isValueFamilyLabel (valueLabel k) = true := by
  unfold valueLabel
  split
  · have hstart : listStartsOf ("Value_" ++ toString k).data "Value_".data = true := by
      rw [String.data_append]
      exact listStartsOf_append _ _
    unfold isValueFamilyLabel
    rw [Bool.or_eq_true]
    exact Or.inr hstart
  · rfl

theorem valueLabel_ne_value {k : Nat} (hk : 1 < k) : valueLabel k ≠ "Value" := by
  unfold valueLabel
  rw [if_pos hk]
  intro h
  have hlen := congrArg String.length h
  rw [String.length_append] at hlen
  have h6 : ("Value_" : String).length = 6 := rfl
  have h5 : ("Value" : String).length = 5 := rfl
  omega

theorem valueLabel_one : valueLabel 1 = "Value" := rfl

/-- The `"Value"`-count of the dedup loop's output: the accumulated list's
count, plus one exactly when the running value count is still zero and a
`"Value"` occurrence remains. -/
theorem dedupHeadersAux_count_value (t : List String) :
    ∀ (final : List String) (count : Nat),
      (dedupHeadersAux t final count).count "Value"
        = final.count "Value" + (if count = 0 ∧ "Value" ∈ t then 1 else 0) := by
  induction t with
  | nil => intro final count; simp [dedupHeadersAux]
  | cons h t ih =>
    intro final count
    by_cases hv : h = "Value"
    · subst hv
      rw [dedupHeadersAux, if_pos rfl, ih]
      rcases Nat.eq_zero_or_pos count with hc | hc
      · subst hc
        simp [List.count_append, valueLabel_one, List.count_singleton]
      · have hne : valueLabel (count + 1) ≠ "Value" := valueLabel_ne_value (by omega)
        have hcount : (List.count "Value" [valueLabel (count + 1)]) = 0 := by
          simp [List.count_singleton, hne]
        simp [List.count_append, hcount]
        omega
    · have hiff : ("Value" ∈ h :: t) ↔ ("Value" ∈ t) := by
        constructor
        · intro hm
          rcases List.mem_cons.1 hm with he | hm'
          · exact absurd he.symm hv
          · exact hm'
        · intro hm
          exact List.mem_cons_of_mem _ hm
      rw [dedupHeadersAux, if_neg hv]
      by_cases hmem : h ∈ final
      · rw [if_pos hmem, ih]
        simp only [hiff]
      · rw [if_neg hmem, ih]
        have hcount : List.count "Value" [h] = 0 := by
          simp [List.count_cons, Ne.symm hv]
        simp only [List.count_append, hcount, hiff]
        omega

/-- The value-family sublist of the dedup loop's output: the accumulated
list's value-family part, followed by one renumbered label per remaining
`"Value"` occurrence, numbered consecutively from the running count. -/
theorem dedupHeadersAux_filter_value (t : List String) :
    ∀ (final : List String) (count : Nat),
      (∀ l ∈ t, l ≠ "Value" → isValueFamilyLabel l = false) →
      (dedupHeadersAux t final count).filter isValueFamilyLabel
        = final.filter isValueFamilyLabel
          ++ (List.range (t.count "Value")).map (fun i => valueLabel (count + i + 1)) := by
  induction t with
  | nil =>
    intro final count _
    simp [dedupHeadersAux]
  | cons h t ih =>
    intro final count hcanon
    have hcanon' : ∀ l ∈ t, l ≠ "Value" → isValueFamilyLabel l = false :=
      fun l hl => hcanon l (List.mem_cons_of_mem _ hl)
    by_cases hv : h = "Value"
    · subst hv
      rw [dedupHeadersAux, if_pos rfl, ih _ _ hcanon']
      have hcnt : List.count "Value" ("Value" :: t) = t.count "Value" + 1 := by
        simp [List.count_cons]
      rw [hcnt, List.filter_append]
      have hfil : List.filter isValueFamilyLabel [valueLabel (count + 1)]
          = [valueLabel (count + 1)] := by
        simp [List.filter, valueLabel_isFam]
      rw [hfil, List.range_succ_eq_map, List.map_cons, List.map_map, List.append_assoc,
        List.singleton_append]
      have hmap : (List.range (t.count "Value")).map
            ((fun i => valueLabel (count + i + 1)) ∘ Nat.succ)
          = (List.range (t.count "Value")).map (fun i => valueLabel (count + 1 + i + 1)) := by
        apply List.map_congr_left
        intro i _
        simp only [Function.comp]
        congr 1
        omega
      rw [hmap]
    · rw [dedupHeadersAux, if_neg hv]
      have hcnt : List.count "Value" (h :: t) = t.count "Value" := by
        simp [List.count_cons, Ne.symm hv]
      have hPh : isValueFamilyLabel h = false := hcanon h (List.mem_cons_self _ _) hv
      by_cases hmem : h ∈ final
      · rw [if_pos hmem, ih _ _ hcanon', hcnt]
      · rw [if_neg hmem, ih _ _ hcanon', hcnt, List.filter_append]
        have hfil : List.filter isValueFamilyLabel [h] = [] := by
          simp [List.filter, hPh]
        rw [hfil, List.append_nil]

/-- The non-value sublist of the dedup loop's output: first-occurrence
deduplication of the non-value labels, relative to the non-value part of
the accumulated list, in preserved order. -/
theorem dedupHeadersAux_filter_nonvalue (t : List String) :
    ∀ (final : List String) (count : Nat),
      (∀ l ∈ t, l ≠ "Value" → isValueFamilyLabel l = false) →
      (dedupHeadersAux t final count).filter (fun l => !isValueFamilyLabel l)
        = final.filter (fun l => !isValueFamilyLabel l)
          ++ keptNonValue (t.filter (fun l => !isValueFamilyLabel l))
              (final.filter (fun l => !isValueFamilyLabel l)) := by
  induction t with
  | nil =>
    intro final count _
    simp [dedupHeadersAux, keptNonValue]
  | cons h t ih =>
    intro final count hcanon
    have hcanon' : ∀ l ∈ t, l ≠ "Value" → isValueFamilyLabel l = false :=
      fun l hl => hcanon l (List.mem_cons_of_mem _ hl)
    by_cases hv : h = "Value"
    · subst hv
      rw [dedupHeadersAux, if_pos rfl, ih _ _ hcanon']
      have hfil : (final ++ [valueLabel (count + 1)]).filter (fun l => !isValueFamilyLabel l)
          = final.filter (fun l => !isValueFamilyLabel l) := by
        rw [List.filter_append]
        simp [List.filter, valueLabel_isFam]
      have hfil2 : ("Value" :: t).filter (fun l => !isValueFamilyLabel l)
          = t.filter (fun l => !isValueFamilyLabel l) := by
        simp [List.filter, isValueFamilyLabel]
      rw [hfil, hfil2]
    · rw [dedupHeadersAux, if_neg hv]
      have hPh : isValueFamilyLabel h = false := hcanon h (List.mem_cons_self _ _) hv
      have hfil2 : (h :: t).filter (fun l => !isValueFamilyLabel l)
          = h :: t.filter (fun l => !isValueFamilyLabel l) := by
        simp [List.filter, hPh]
      rw [hfil2]
      by_cases hmem : h ∈ final
      · rw [if_pos hmem, ih _ _ hcanon']
        have hseen : h ∈ final.filter (fun l => !isValueFamilyLabel l) :=
          List.mem_filter.2 ⟨hmem, by simp [hPh]⟩
        rw [keptNonValue, if_pos hseen]
      · rw [if_neg hmem, ih _ _ hcanon']
        have hnseen : h ∉ final.filter (fun l => !isValueFamilyLabel l) := by
          intro hc
          exact hmem (List.mem_filter.1 hc).1
        have hfil3 : (final ++ [h]).filter (fun l => !isValueFamilyLabel l)
            = final.filter (fun l => !isValueFamilyLabel l) ++ [h] := by
          rw [List.filter_append]
          simp [List.filter, hPh]
        rw [hfil3, keptNonValue, if_neg hnseen, List.append_assoc, List.singleton_append]

theorem dictSet_lookup (d : List (String × PyValue)) (k : String) (v : PyValue)
    (h : String) :
    (dictSet d k v).lookup h = if h = k then some v else d.lookup h := by
  induction d with
  | nil =>
    by_cases hk : h = k
    · subst hk
      simp [dictSet, List.lookup]
    · have hbk : (h == k) = false := beq_eq_false_iff_ne.2 hk
      simp [dictSet, List.lookup, hbk, hk]
  | cons p t ih =>
    obtain ⟨k', v'⟩ := p
    by_cases hkk : k' = k
    · subst hkk
      by_cases hk : h = k'
      · subst hk
        simp [dictSet, List.lookup]
      · have hbk : (h == k') = false := beq_eq_false_iff_ne.2 hk
        simp [dictSet, List.lookup, hbk, hk]
    · rw [dictSet, if_neg hkk]
      by_cases hk : h = k'
      · subst hk
        simp [List.lookup, hkk]
      · have hbk : (h == k') = false := beq_eq_false_iff_ne.2 hk
        simp [List.lookup, hbk, ih]

theorem buildRowInit_lookup_isSome (headers : List String) :
    ∀ (d : List (String × PyValue)) (h : String),
      (h ∈ headers ∨ (d.lookup h).isSome = true) →
      ((headers.foldl (fun d h' => dictSet d h' (.s "")) d).lookup h).isSome = true := by
  induction headers with
  | nil =>
    intro d h hyp
    rcases hyp with hmem | hsome
    · cases hmem
    · simpa using hsome
  | cons h' hs ih =>
    intro d h hyp
    rw [List.foldl_cons]
    apply ih
    by_cases hh : h = h'
    · right
      rw [dictSet_lookup, if_pos hh]
      rfl
    · rcases hyp with hmem | hsome
      · rcases List.mem_cons.1 hmem with he | hm
        · exact absurd he hh
        · exact Or.inl hm
      · right
        rw [dictSet_lookup, if_neg hh]
        exact hsome

theorem mapCellStep_lookup_isSome {cells : List String}
    {d d' : List (String × PyValue)} {x : Nat × String}
    (hstep : mapCellStep cells d x = .ok d') (h : String)
    (hsome : (d.lookup h).isSome = true) : (d'.lookup h).isSome = true := by
  have pres : ∀ k v, ((dictSet d k v).lookup h).isSome = true := by
    intro k v
    rw [dictSet_lookup]
    by_cases hk : h = k
    · rw [if_pos hk]
      rfl
    · rw [if_neg hk]
      exact hsome
  unfold mapCellStep at hstep
  by_cases h1 : x.1 < cells.length
  · rw [if_pos h1] at hstep
    by_cases h2 : containsStr x.2 "Value" = true
    · rw [if_pos h2] at hstep
      cases hc : convert_currency_to_number (cells.getD x.1 "") with
      | ok n =>
        rw [hc] at hstep
        cases hstep
        exact pres _ _
      | error e =>
        rw [hc] at hstep
        cases hstep
    · rw [if_neg h2] at hstep
      by_cases h3 : (containsStr x.2 "%" && decide (x.1 < cells.length)) = true
      · rw [if_pos h3] at hstep
        cases hstep
        exact pres _ _
      · rw [if_neg h3] at hstep
        cases hstep
        exact pres _ _
  · rw [if_neg h1] at hstep
    cases hstep
    exact hsome

theorem foldlM_mapCellStep_lookup_isSome {cells : List String}
    (l : List (Nat × String)) :
    ∀ (d d' : List (String × PyValue)),
      List.foldlM (mapCellStep cells) d l = .ok d' →
      ∀ h, (d.lookup h).isSome = true → (d'.lookup h).isSome = true := by
  induction l with
  | nil =>
    intro d d' hfold h hsome
    have hok : (Except.ok d : Except String (List (String × PyValue))) = .ok d' := hfold
    cases hok
    exact hsome
  | cons x t ih =>
    intro d d' hfold h hsome
    cases hstep : mapCellStep cells d x with
    | ok d2 =>
      have hfold2 : List.foldlM (mapCellStep cells) d2 t = .ok d' := by
        rw [List.foldlM_cons, hstep] at hfold
        exact hfold
      exact ih d2 d' hfold2 h (mapCellStep_lookup_isSome hstep h hsome)
    | error e =>
      have hbad : (Except.error e : Except String (List (String × PyValue))) = .ok d' := by
        rw [List.foldlM_cons, hstep] at hfold
        exact hfold
      cases hbad

theorem buildRow_lookup_isSome {headers : List String} {cells : List String}
    {d : List (String × PyValue)} (hbuild : buildRow headers cells = .ok d)
    (h : String) (hmem : h ∈ headers) : (d.lookup h).isSome = true := by
  unfold buildRow at hbuild
  exact foldlM_mapCellStep_lookup_isSome _ _ _ hbuild h
    (buildRowInit_lookup_isSome headers [] h (Or.inl hmem))

theorem processRow_skip_short (headers : List String) (row : HtmlRow)
    (hshort : (extractCells row).length < 2) : processRow headers row = .ok none := by
  unfold processRow
  split
  · rfl
  · rw [if_pos hshort]

theorem processRow_some_props {headers : List String} {row : HtmlRow}
    {r : List (String × PyValue)}
    (hp : processRow headers row = .ok (some r)) :
    (∀ h ∈ headers, (r.lookup h).isSome = true) ∧
    (∃ v, r.lookup "Club" = some v ∧ v.truthy = true) ∧
    2 ≤ (extractCells row).length := by
  unfold processRow at hp
  split at hp
  · cases hp
  · dsimp only at hp
    split at hp
    · cases hp
    · next hshort =>
      split at hp
      · cases hp
      · next d heq =>
        split at hp
        · next hguard =>
          cases hp
          refine ⟨fun h hh => buildRow_lookup_isSome heq h hh, ?_, by omega⟩
          rw [Bool.and_eq_true] at hguard
          have hclub := hguard.2
          cases hlook : r.lookup "Club" with
          | none =>
            rw [hlook] at hclub
            cases hclub
          | some v =>
            rw [hlook] at hclub
            exact ⟨v, rfl, hclub⟩
        · cases hp

theorem scrapeRows_mem {headers : List String} (rows : List HtmlRow) :
    ∀ (acc res : List (List (String × PyValue))),
      List.foldlM (scrapeStep headers) acc rows = .ok res →
      ∀ r ∈ res, r ∈ acc ∨ ∃ row ∈ rows, processRow headers row = .ok (some r) := by
  induction rows with
  | nil =>
    intro acc res hfold r hr
    have hok : (Except.ok acc : Except String (List (List (String × PyValue)))) = .ok res :=
      hfold
    cases hok
    exact Or.inl hr
  | cons row rows ih =>
    intro acc res hfold r hr
    rw [List.foldlM_cons] at hfold
    cases hp : processRow headers row with
    | error e =>
      have hbad : (Except.error e : Except String (List (List (String × PyValue))))
          = .ok res := by
        rw [show scrapeStep headers acc row = .error e by rw [scrapeStep, hp]] at hfold
        exact hfold
      cases hbad
    | ok o =>
      cases o with
      | none =>
        have hfold2 : List.foldlM (scrapeStep headers) acc rows = .ok res := by
          rw [show scrapeStep headers acc row = .ok acc by rw [scrapeStep, hp]] at hfold
          exact hfold
        rcases ih acc res hfold2 r hr with hacc | ⟨row', hrow', hp'⟩
        · exact Or.inl hacc
        · exact Or.inr ⟨row', List.mem_cons_of_mem _ hrow', hp'⟩
      | some r0 =>
        have hfold2 : List.foldlM (scrapeStep headers) (acc ++ [r0]) rows = .ok res := by
          rw [show scrapeStep headers acc row = .ok (acc ++ [r0]) by
            rw [scrapeStep, hp]] at hfold
          exact hfold
        rcases ih (acc ++ [r0]) res hfold2 r hr with hacc | ⟨row', hrow', hp'⟩
        · rcases List.mem_append.1 hacc with h1 | h2
          · exact Or.inl h1
          · have hr0 : r = r0 := List.mem_singleton.1 h2
            subst hr0
            exact Or.inr ⟨row, List.mem_cons_self _ _, hp⟩
        · exact Or.inr ⟨row', List.mem_cons_of_mem _ hrow', hp'⟩

theorem daysInMonth_ge_28 (y m : Nat) : 28 ≤ daysInMonth y m := by
  unfold daysInMonth
  split
  · split <;> omega
  · split <;> omega

theorem daysInMonth_le_31 (y m : Nat) : daysInMonth y m ≤ 31 := by
  unfold daysInMonth
  split
  · split <;> omega
  · split <;> omega

theorem dateIdx_le_of_le {a b : PyDate} (h : dateLeB a b = true) :
    dateIdx a ≤ dateIdx b := by
  rw [dateLeB, decide_eq_true_iff] at h
  obtain ⟨ya, ma, da⟩ := a
  obtain ⟨yb, mb, db⟩ := b
  simp only at h
  unfold dateIdx
  simp only
  split_ifs <;> omega

theorem dateIdx_lt_next {a b : PyDate} (h : pyNextDate a = some b) :
    dateIdx a < dateIdx b := by
  unfold pyNextDate at h
  split_ifs at h with h1 h2 h3
  · cases h
    unfold dateIdx
    simp only
    have := a.day_ge
    split_ifs <;> omega
  · cases h
    unfold dateIdx
    simp only
    have := a.month_le
    split_ifs <;> omega
  · cases h
    unfold dateIdx
    simp only
    have := a.day_le
    have := daysInMonth_le_31 a.year a.month
    split_ifs <;> omega

theorem dateLeB_refl (a : PyDate) : dateLeB a a = true := by
  rw [dateLeB, decide_eq_true_iff]
  omega

theorem dateLeB_of_ltB {a b : PyDate} (h : dateLtB a b = true) : dateLeB a b = true := by
  rw [dateLtB, decide_eq_true_iff] at h
  rw [dateLeB, decide_eq_true_iff]
  omega

theorem dateLtB_of_ltB_of_leB {a b c : PyDate} (h1 : dateLtB a b = true)
    (h2 : dateLeB b c = true) : dateLtB a c = true := by
  rw [dateLtB, decide_eq_true_iff] at h1 ⊢
  rw [dateLeB, decide_eq_true_iff] at h2
  omega

theorem dateLtB_irrefl (a : PyDate) : ¬ dateLtB a a = true := by
  rw [dateLtB, decide_eq_true_iff]
  omega

theorem pyNextDate_ltB {a b : PyDate} (h : pyNextDate a = some b) :
    dateLtB a b = true := by
  unfold pyNextDate at h
  split_ifs at h with h1 h2 h3
  · cases h
    rw [dateLtB, decide_eq_true_iff]
    dsimp only
    omega
  · cases h
    rw [dateLtB, decide_eq_true_iff]
    dsimp only
    omega
  · cases h
    rw [dateLtB, decide_eq_true_iff]
    dsimp only
    omega

theorem pyNextDate_day {a b : PyDate} (h : pyNextDate a = some b) :
    b.day = 1 ∨ b.day = 15 := by
  unfold pyNextDate at h
  split_ifs at h <;> cases h <;> simp

theorem genDates_step (cur e : PyDate) (hle : dateLeB cur e = true) {nxt : PyDate}
    (hn : pyNextDate cur = some nxt) :
    genDates cur e = (genDates nxt e).map (fun l => cur :: l) := by
  rw [genDates]
  rw [dif_pos hle]
  split
  · next hnone =>
    rw [hn] at hnone
    cases hnone
  · next nxt2 hsome =>
    rw [hn] at hsome
    cases hsome
    rfl

theorem genDates_stop (cur e : PyDate) (hle : ¬ dateLeB cur e = true) :
    genDates cur e = some [] := by
  rw [genDates]
  rw [dif_neg hle]

/-- Core soundness of the emission loop, by induction on the measure: from
a snapped current date (day 1 or 15), when the end date lies strictly
before 9999-12-15 the loop never hits the year cap, and it returns a list
of dates on the half-month grid, lower-bounded by the current date,
strictly increasing, and duplicate-free. -/
theorem genDates_props (n : Nat) : ∀ (cur en : PyDate),
    dateIdx en + 1 - dateIdx cur ≤ n →
    (cur.day = 1 ∨ cur.day = 15) →
    dateLtB en date_9999_12_15 = true →
    ∃ l, genDates cur en = some l ∧
      (∀ d ∈ l, dateLeB cur d = true ∧ (d.day = 1 ∨ d.day = 15)) ∧
      l.Chain' (fun a b => dateLtB a b = true) ∧
      l.Nodup := by
  induction n with
  | zero =>
    intro cur en hm hday hend
    have hnle : ¬ dateLeB cur en = true := by
      intro hle
      have := dateIdx_le_of_le hle
      omega
    exact ⟨[], genDates_stop _ _ hnle, by simp, by simp, by simp⟩
  | succ n ih =>
    intro cur en hm hday hend
    by_cases hle : dateLeB cur en = true
    · cases hn : pyNextDate cur with
      | none =>
        exfalso
        unfold pyNextDate at hn
        split_ifs at hn with h1 h2 h3
        rw [dateLeB, decide_eq_true_iff] at hle
        rw [dateLtB, decide_eq_true_iff] at hend
        simp only [date_9999_12_15] at hend
        have hyc := cur.year_le
        have hyd : cur.day = 15 := by
          rcases hday with hd1 | hd15
          · exact absurd hd1 h1
          · exact hd15
        omega
      | some nxt =>
        have hnday := pyNextDate_day hn
        have hlt : dateLtB cur nxt = true := pyNextDate_ltB hn
        have hmeas : dateIdx en + 1 - dateIdx nxt ≤ n := by
          have := dateIdx_lt_next hn
          have := dateIdx_le_of_le hle
          omega
        obtain ⟨l, hl, hprops, hchain, hnodup⟩ := ih nxt en hmeas hnday hend
        refine ⟨cur :: l, ?_, ?_, ?_, ?_⟩
        · rw [genDates_step _ _ hle hn, hl]
          rfl
        · intro d hd
          rcases List.mem_cons.1 hd with he' | hm'
          · subst he'
            exact ⟨dateLeB_refl _, hday⟩
          · obtain ⟨hled, hdayd⟩ := hprops d hm'
            exact ⟨dateLeB_of_ltB (dateLtB_of_ltB_of_leB hlt hled), hdayd⟩
        · apply List.Chain'.cons' hchain
          intro y hy
          have hyl : y ∈ l := List.mem_of_mem_head? hy
          exact dateLtB_of_ltB_of_leB hlt (hprops y hyl).1
        · rw [List.nodup_cons]
          refine ⟨?_, hnodup⟩
          intro hcl
          exact dateLtB_irrefl cur
            (dateLtB_of_ltB_of_leB hlt (hprops cur hcl).1)
    · exact ⟨[], genDates_stop _ _ hle, by simp, by simp, by simp⟩

/-- Claim C1: the Value Normalizer meets the spec's literal fixtures:
`convert_currency_to_number` maps `"€944.70m"` to `944700000`, `"€500k"`
to `500000`, and `"-"`, `""`, `"abc"` to `0`; `parse_percentage` maps
`"5.1 %"` to `5.1`, `"-"` to `0.0`, and `"-3.2%"` to `-3.2`. -/
theorem value_normalizer_fixtures :
    convert_currency_to_number "€944.70m" = .ok 944700000
    ∧ convert_currency_to_number "€500k" = .ok 500000
    ∧ convert_currency_to_number "-" = .ok 0
    ∧ convert_currency_to_number "" = .ok 0
    ∧ convert_currency_to_number "abc" = .ok 0
    ∧ (parse_percentage "5.1 %").toVal = some (5.1 : ℚ)
    ∧ (parse_percentage "-").toVal = some (0 : ℚ)
    ∧ (parse_percentage "-3.2%").toVal = some (-3.2 : ℚ) := by
  refine ⟨by decide, by decide, by decide, by decide, by decide, ?_, ?_, ?_⟩
  · rw [show parse_percentage "5.1 %" = PyFloat.finite ⟨51, 1⟩ from by decide]
    show some ((51 : ℚ) / (10 : ℚ) ^ (1 : Nat)) = some (5.1 : ℚ)
    norm_num
  · rw [show parse_percentage "-" = PyFloat.finite ⟨0, 0⟩ from by decide]
    show some ((((0 : Int) : ℚ)) / (10 : ℚ) ^ (0 : Nat)) = some (0 : ℚ)
    norm_num
  · rw [show parse_percentage "-3.2%" = PyFloat.finite ⟨-32, 1⟩ from by decide]
    show some ((((-32 : Int) : ℚ)) / (10 : ℚ) ^ (1 : Nat)) = some (-3.2 : ℚ)
    norm_num

/-- Claim C2 (code bug): `parse_percentage` is total by construction, but
`convert_currency_to_number` is not: on the numeric string `"1e400"`
(which has a digit and no currency marker), `float("1e400")` overflows to
infinity without raising, and `int(float("1e400"))` then raises
`OverflowError`, which the surrounding `except ValueError` does not catch,
so the exception escapes the function. -/
theorem convert_currency_overflow_raises :
    convert_currency_to_number "1e400"
      = .error "OverflowError: cannot convert float infinity to integer" := by
  decide

/-- Claim C3: for every sequence of canonicalized labels (no label other
than `"Value"` itself belongs to the value family), the final header list
satisfies: the value-family labels are exactly `Value, Value_2, ...`, one
per `"Value"` occurrence in order (never dropped); at most one label is
literally `"Value"`; and the non-value labels are the first-occurrence
deduplication of the input's non-value labels, order preserved (duplicates
silently dropped, not renumbered). -/
theorem dedup_headers_invariants (hs : List String)
    (hcanon : ∀ l ∈ hs, l ≠ "Value" → isValueFamilyLabel l = false) :
    (dedupHeaders hs).filter isValueFamilyLabel
        = (List.range (hs.count "Value")).map (fun i => valueLabel (i + 1))
    ∧ (dedupHeaders hs).count "Value" ≤ 1
    ∧ (dedupHeaders hs).filter (fun l => !isValueFamilyLabel l)
        = keptNonValue (hs.filter (fun l => !isValueFamilyLabel l)) [] := by
  refine ⟨?_, ?_, ?_⟩
  · rw [dedupHeaders, dedupHeadersAux_filter_value hs [] 0 hcanon]
    simp only [List.filter_nil, List.nil_append]
    apply List.map_congr_left
    intro i _
    congr 1
    omega
  · rw [dedupHeaders, dedupHeadersAux_count_value hs [] 0]
    simp only [List.count_nil, Nat.zero_add]
    split_ifs <;> omega
  · rw [dedupHeaders, dedupHeadersAux_filter_nonvalue hs [] 0 hcanon]
    simp only [List.filter_nil, List.nil_append]

/-- Witness for C3 at a concrete canonicalized header sequence containing
a duplicated `"Value"` and a duplicated non-value label. -/
theorem dedup_headers_invariants_witness :
    (dedupHeaders ["Rank", "Club", "Value", "Value", "Rank"]).filter isValueFamilyLabel
        = (List.range ((["Rank", "Club", "Value", "Value", "Rank"] :
            List String).count "Value")).map (fun i => valueLabel (i + 1))
    ∧ (dedupHeaders ["Rank", "Club", "Value", "Value", "Rank"]).count "Value" ≤ 1
    ∧ (dedupHeaders ["Rank", "Club", "Value", "Value", "Rank"]).filter
          (fun l => !isValueFamilyLabel l)
        = keptNonValue ((["Rank", "Club", "Value", "Value", "Rank"] :
            List String).filter (fun l => !isValueFamilyLabel l)) [] :=
  dedup_headers_invariants ["Rank", "Club", "Value", "Value", "Rank"] (by decide)

/-- Claim C4: canonicalizing and deduplicating the raw header texts
`["", "Club", "Value Oct 1, 2024", "Value Oct 1, 2023"]` yields exactly
`["Rank", "Club", "Value", "Value_2"]`. -/
theorem header_canonicalization_example :
    headersFromTexts ["", "Club", "Value Oct 1, 2024", "Value Oct 1, 2023"]
      = ["Rank", "Club", "Value", "Value_2"] := by
  decide

/-- Claim C5: for every header list and body-row list, whenever the row
loop succeeds: a row with fewer than 2 remaining cells contributes nothing
to the result; every retained row has a value for every label of the final
header list; and every retained row has a truthy (non-empty) value under
the `"Club"` header. -/
theorem row_extraction_invariants (headers : List String) (rows : List HtmlRow)
    (result : List (List (String × PyValue)))
    (hres : scrapeRows headers rows = .ok result) :
    (∀ row ∈ rows, (extractCells row).length < 2 → processRow headers row = .ok none)
    ∧ ∀ r ∈ result,
        (∀ h ∈ headers, ∃ v, r.lookup h = some v)
        ∧ ∃ v, r.lookup "Club" = some v ∧ v.truthy = true := by
  constructor
  · intro row _ hshort
    exact processRow_skip_short headers row hshort
  · intro r hr
    rcases scrapeRows_mem rows [] result hres r hr with hacc | ⟨row, _, hp⟩
    · cases hacc
    · obtain ⟨hall, hclub, _⟩ := processRow_some_props hp
      refine ⟨fun h hh => ?_, hclub⟩
      rcases Option.isSome_iff_exists.1 (hall h hh) with ⟨v, hv⟩
      exact ⟨v, hv⟩

/-- Witness for C5 at a concrete table with one retained row. -/
theorem row_extraction_invariants_witness :
    ∃ v, (([("Rank", PyValue.s "1"), ("Club", PyValue.s "Bayern"),
        ("Value", PyValue.i 944700000)] : List (String × PyValue)).lookup "Club")
      = some v ∧ v.truthy = true :=
  ((row_extraction_invariants ["Rank", "Club", "Value"]
      [⟨[], [⟨[], "1"⟩, ⟨[], "Bayern"⟩, ⟨[], "€944.70m"⟩]⟩]
      [[("Rank", PyValue.s "1"), ("Club", PyValue.s "Bayern"),
        ("Value", PyValue.i 944700000)]]
      (by decide)).2
    [("Rank", PyValue.s "1"), ("Club", PyValue.s "Bayern"),
      ("Value", PyValue.i 944700000)] (by decide)).2

/-- Claim C6: the date-range fixtures: `generate_date_range` emits exactly
the 1st/15th grid dates between the snapped start and the end, inclusive:
from `2024-10-01` to `2024-11-01` the three dates `2024-10-01`,
`2024-10-15`, `2024-11-01`; and from `2024-10-07` (snapped down to
`2024-10-01` since 7 < 15) to `2024-10-20` the two dates `2024-10-01` and
`2024-10-15`, stopping because the next candidate `2024-11-01` exceeds the
end date. -/
theorem generate_date_range_fixtures :
    generate_date_range "2024-10-01" "2024-11-01"
      = some ["2024-10-01", "2024-10-15", "2024-11-01"]
    ∧ generate_date_range "2024-10-07" "2024-10-20"
      = some ["2024-10-01", "2024-10-15"] := by
  constructor
  · show (match genDates date_2024_10_01 date_2024_11_01 with
      | some l => some (l.map fmtDate)
      | none => none) = some ["2024-10-01", "2024-10-15", "2024-11-01"]
    rw [genDates_step _ _ (by decide)
        (show pyNextDate date_2024_10_01 = some date_2024_10_15 from rfl),
      genDates_step _ _ (by decide)
        (show pyNextDate date_2024_10_15 = some date_2024_11_01 from rfl),
      genDates_step _ _ (by decide)
        (show pyNextDate date_2024_11_01 = some date_2024_11_15 from rfl),
      genDates_stop _ _ (by decide)]
    rfl
  · show (match genDates date_2024_10_01 date_2024_10_20 with
      | some l => some (l.map fmtDate)
      | none => none) = some ["2024-10-01", "2024-10-15"]
    rw [genDates_step _ _ (by decide)
        (show pyNextDate date_2024_10_01 = some date_2024_10_15 from rfl),
      genDates_step _ _ (by decide)
        (show pyNextDate date_2024_10_15 = some date_2024_11_01 from rfl),
      genDates_stop _ _ (by decide)]
    rfl

/-- Claim C7 counterexample: both `"9999-12-15"` strings are well-formed
calendar dates (`strptime` accepts them), yet `generate_date_range` does
not return a list: after emitting 9999-12-15 the loop advances with
`datetime(year + 1, 1, 1)`, which raises `ValueError` past
`datetime.MAXYEAR = 9999`. -/
theorem generate_date_range_year_cap_counterexample :
    strptimeYmd "9999-12-15" = some date_9999_12_15
    ∧ generate_date_range "9999-12-15" "9999-12-15" = none := by
  refine ⟨rfl, ?_⟩
  show (match genDates date_9999_12_15 date_9999_12_15 with
    | some l => some (l.map fmtDate)
    | none => none) = none
  have hstep : genDates date_9999_12_15 date_9999_12_15 = none := by
    rw [genDates, dif_pos (by decide)]
    split
    · rfl
    · next nxt hsome =>
      rw [show pyNextDate date_9999_12_15 = none from rfl] at hsome
      cases hsome
  rw [hstep]

/-- Claim C7 as amended: for every pair of well-formed calendar dates whose
end lies strictly before 9999-12-15 (so the advance never exceeds
`datetime.MAXYEAR`), `generate_date_range` terminates with a finite list:
the image under `strftime` of a date list in which every date has
day-of-month 1 or 15, the dates are strictly increasing chronologically,
and no date occurs twice. -/
theorem generate_date_range_amended (s e : String) (st en : PyDate)
    (hs : strptimeYmd s = some st) (he : strptimeYmd e = some en)
    (hend : dateLtB en date_9999_12_15 = true) :
    ∃ l : List PyDate,
      generate_date_range s e = some (l.map fmtDate)
      ∧ (∀ d ∈ l, d.day = 1 ∨ d.day = 15)
      ∧ l.Chain' (fun a b => dateLtB a b = true)
      ∧ l.Nodup := by
  have hsnap : (snapStart st).day = 1 ∨ (snapStart st).day = 15 := by
    unfold snapStart
    split_ifs <;> simp
  obtain ⟨l, hl, hprops, hchain, hnodup⟩ :=
    genDates_props (dateIdx en + 1 - dateIdx (snapStart st)) (snapStart st) en
      (le_refl _) hsnap hend
  refine ⟨l, ?_, fun d hd => (hprops d hd).2, hchain, hnodup⟩
  unfold generate_date_range
  rw [hs, he]
  show (match genDates (snapStart st) en with
    | some l' => some (l'.map fmtDate)
    | none => none) = some (l.map fmtDate)
  rw [hl]

/-- Witness for the amended C7 at the concrete range 2024-10-01 to
2024-11-01. -/
theorem generate_date_range_amended_witness :
    ∃ l : List PyDate,
      generate_date_range "2024-10-01" "2024-11-01" = some (l.map fmtDate)
      ∧ (∀ d ∈ l, d.day = 1 ∨ d.day = 15)
      ∧ l.Chain' (fun a b => dateLtB a b = true)
      ∧ l.Nodup :=
  generate_date_range_amended "2024-10-01" "2024-11-01" date_2024_10_01
    date_2024_11_01 rfl rfl (by decide)

/-- Claim C8: `save_to_csv` writes the header record (`Date` followed by
the extraction's header labels) only when the sink does not exist at the
start of the write: a write into a nonexistent sink produces the header
record followed by the data records, a write into an existing sink appends
only data records, and writing the same extraction twice starting from a
nonexistent sink yields exactly one header record followed by the two
blocks of data records. -/
theorem save_to_csv_header_once (hs : List String)
    (rows : List (List (String × PyValue))) (date : Option String)
    (old : List (List PyValue)) :
    save_to_csv (some ⟨some hs, some rows⟩) none date
      = (true, some ((("Date" :: hs).map PyValue.s)
          :: rows.map (fun r => csvRecordOf ("Date" :: hs) (rowWithDate date r))))
    ∧ save_to_csv (some ⟨some hs, some rows⟩) (some old) date
      = (true, some (old
          ++ rows.map (fun r => csvRecordOf ("Date" :: hs) (rowWithDate date r))))
    ∧ save_to_csv (some ⟨some hs, some rows⟩)
        (save_to_csv (some ⟨some hs, some rows⟩) none date).2 date
      = (true, some ((("Date" :: hs).map PyValue.s)
          :: (rows.map (fun r => csvRecordOf ("Date" :: hs) (rowWithDate date r))
            ++ rows.map (fun r => csvRecordOf ("Date" :: hs) (rowWithDate date r))))) := by
  refine ⟨?_, ?_, ?_⟩ <;> simp [save_to_csv]

/-- Claim C9: when the `data` argument is `None`, or a dict lacking the
`"headers"` key or the `"data"` key, `save_to_csv` returns `False` and the
sink is left exactly as it was (nothing is opened, created or written). -/
theorem save_to_csv_invalid_data_noop (file : Option (List (List PyValue)))
    (date : Option String) :
    save_to_csv none file date = (false, file)
    ∧ (∀ rows, save_to_csv (some ⟨none, rows⟩) file date = (false, file))
    ∧ (∀ hs, save_to_csv (some ⟨hs, none⟩) file date = (false, file)) := by
  refine ⟨rfl, ?_, ?_⟩
  · intro rows
    cases rows <;> rfl
  · intro hsf
    cases hsf <;> rfl

/-- Claim C10: when `scrape_bundesliga_market_values` is given a date
string that is malformed (`strptime` raises) or whose day-of-month is not
1 or 15 (the explicit raise), the `ValueError` is caught, the date is
discarded, and the URL is the base endpoint with no date path segment. -/
theorem scrape_url_invalid_date (s : String)
    (hbad : strptimeYmd s = none
      ∨ ∃ p, strptimeYmd s = some p ∧ p.day ≠ 1 ∧ p.day ≠ 15) :
    scrapeUrl (some s) = baseUrl := by
  have hnt : optStrTruthy (validateScrapeDate (some s)) = false := by
    unfold validateScrapeDate
    by_cases hs0 : s = ""
    · subst hs0
      rfl
    · have ht : optStrTruthy (some s) = true := by
        simp [optStrTruthy, bne_iff_ne, hs0]
      rw [if_pos ht]
      rcases hbad with hn | ⟨p, hp, h1, h15⟩
      · show optStrTruthy (match strptimeYmd s with
          | some p => if p.day = 1 ∨ p.day = 15 then some s else none
          | none => none) = false
        rw [hn]
        rfl
      · show optStrTruthy (match strptimeYmd s with
          | some p => if p.day = 1 ∨ p.day = 15 then some s else none
          | none => none) = false
        rw [hp]
        show optStrTruthy (if p.day = 1 ∨ p.day = 15 then some s else none) = false
        rw [if_neg (fun hc => hc.elim h1 h15)]
        rfl
  unfold scrapeUrl
  simp [hnt]

/-- Witness for C10 at the concrete well-formed date `2024-10-07`, whose
day 7 is neither 1 nor 15. -/
theorem scrape_url_invalid_date_witness : scrapeUrl (some "2024-10-07") = baseUrl :=
  scrape_url_invalid_date "2024-10-07"
    (Or.inr ⟨date_2024_10_07, rfl, by decide, by decide⟩)
